import Mathlib

/-!
Shallow embedding of the image-convolution engine in `src/ecnn.ts`
(classes `Matrix`, `Picture`, `Convolutor`, `PictureConvolutor`), together
with theorems checking the specification's claims against it.

Modelling conventions:
* JavaScript numbers are modelled as `Option ℚ` (`JSVal`): `some q` is an
  ordinary number, `none` stands for the absorbing non-finite/undefined
  values (`undefined` read out of an array's range, `NaN`, and the result
  of a division by zero).
* A JavaScript array is a `List JSVal`; writing past the end extends the
  array (the skipped slots become holes, read back as `undefined`), exactly
  as `arr[i] = v` does for `i >= arr.length`.  Writing at a negative index
  creates a non-element property, which we conflate with a no-op on the
  element list.
* `throw Error(...)` sites become `Except.error` with one `Err` constructor
  per site, plus the implicit `RangeError` of `Array(len)` for a negative
  length and the `TypeError` of `reduce` over an empty array.
* In-place mutation becomes explicit state passing; `Math.random()` becomes
  an injected stream `rng : ℕ → ℚ` together with a counter of how many
  samples have been consumed.
-/

namespace Ecnn

/-- Error kinds, one per `throw` site of the source (plus the two implicit
JavaScript errors described in the module docstring). -/
inductive Err where
  | outOfBounds
  | sizeMismatch
  | dimMismatch
  | pictureCtorMismatch
  | rowsMismatch
  | colsMismatch
  | evenKernelSize
  | notSquare
  | invalidArrayLength
  | emptyReduce
deriving DecidableEq, Repr

/-- A JavaScript numeric value: `some q` is a finite number, `none` is the
absorbing non-finite/undefined class. -/
abbrev JSVal := Option ℚ

instance {ε α : Type _} [DecidableEq ε] [DecidableEq α] : DecidableEq (Except ε α) :=
  fun x y =>
  match x, y with
  | .error e, .error e' =>
    if h : e = e' then .isTrue (by subst h; rfl)
    else .isFalse (by intro hh; cases hh; exact h rfl)
  | .error _, .ok _ => .isFalse (by intro hh; cases hh)
  | .ok _, .error _ => .isFalse (by intro hh; cases hh)
  | .ok a, .ok a' =>
    if h : a = a' then .isTrue (by subst h; rfl)
    else .isFalse (by intro hh; cases hh; exact h rfl)

attribute [local semireducible] Rat.add Rat.mul Rat.inv

/-- JavaScript `a + b` on numeric reads; any non-finite operand is absorbing. -/
def jsAdd : JSVal → JSVal → JSVal
  | some a, some b => some (a + b)
  | _, _ => none

/-- JavaScript `a * b` on numeric reads. -/
def jsMul : JSVal → JSVal → JSVal
  | some a, some b => some (a * b)
  | _, _ => none

/-- JavaScript `a / b` on numeric reads; dividing by zero yields a
non-finite value, modelled by `none`. -/
def jsDiv : JSVal → JSVal → JSVal
  | some a, some b => if b = 0 then none else some (a / b)
  | _, _ => none

/-- `l[i]` for a JavaScript array: `undefined` (`none`) outside the range. -/
def jsGet (l : List JSVal) (i : ℤ) : JSVal :=
  if h : 0 ≤ i ∧ i.toNat < l.length then l.get ⟨i.toNat, h.2⟩ else none

/-- `l[i] = v` for a JavaScript array: in-range writes update, past-the-end
writes extend the array to length `i+1` with holes in between. -/
def jsSet (l : List JSVal) (i : ℤ) (v : JSVal) : List JSVal :=
  if 0 ≤ i then
    if i.toNat < l.length then l.set i.toNat v
    else l ++ List.replicate (i.toNat - l.length) none ++ [v]
  else l

/-- The `Matrix` class: declared row/column counts and the flat backing
array (called `kernel` in the source). -/
structure Matrix where
  r : ℤ
  c : ℤ
  kernel : List JSVal
deriving DecidableEq, Repr

/-- `new Matrix(r, c)`: allocates `Array(c * r).fill(0)`; a negative length
makes `Array` throw `RangeError`. -/
def Matrix.new (r c : ℤ) : Except Err Matrix :=
  if c * r < 0 then .error .invalidArrayLength
  else pure ⟨r, c, List.replicate (c * r).toNat (some 0)⟩

/-- `Matrix.checkBounds(r, c)`: rejects only `r >= rows || c >= cols`. -/
def Matrix.checkBounds (m : Matrix) (r c : ℤ) : Except Err Unit :=
  if m.r ≤ r ∨ m.c ≤ c then .error .outOfBounds else pure ()

/-- `Matrix.index(c, r)`: as in the source, the parameter names are swapped
relative to every caller, so the bounds check receives the caller's
`(row, col)` (and is correct) while the flattening arithmetic computes
`row + col * cols`. -/
def Matrix.index (m : Matrix) (c r : ℤ) : Except Err ℤ := do
  m.checkBounds c r
  pure (c + r * m.c)

/-- `Matrix.at(r, c)` (named `at'` because `at` is a Lean keyword). -/
def Matrix.at' (m : Matrix) (r c : ℤ) : Except Err JSVal := do
  let i ← m.index r c
  pure (jsGet m.kernel i)

/-- `Matrix.set(r, c, val)`. -/
def Matrix.set (m : Matrix) (r c : ℤ) (v : JSVal) : Except Err Matrix := do
  let i ← m.index r c
  pure { m with kernel := jsSet m.kernel i v }

/-- `Matrix.getValues()`. -/
def Matrix.getValues (m : Matrix) : List JSVal := m.kernel

/-- `Matrix.setValues(values)`. -/
def Matrix.setValues (m : Matrix) (values : List JSVal) : Except Err Matrix :=
  if values.length ≠ m.kernel.length then .error .sizeMismatch
  else pure { m with kernel := values }

/-- `Matrix.getModulo()`: `reduce((prev, curr) => prev + curr)`; `reduce`
with no initial value throws on an empty array. -/
def Matrix.getModulo (m : Matrix) : Except Err JSVal :=
  match m.kernel with
  | [] => .error .emptyReduce
  | v :: rest => pure (rest.foldl jsAdd v)

/-- `Matrix.scale(factor)`: in-place map `n => n * factor` (holes stay
holes, which coincides with `none` being absorbing). -/
def Matrix.scale (m : Matrix) (factor : JSVal) : Matrix :=
  { m with kernel := m.kernel.map (fun v => jsMul v factor) }

/-- `Matrix.add(other)`: elementwise `(n, i) => n + otherVals[i]` after a
shape check. -/
def Matrix.add (m other : Matrix) : Except Err Matrix :=
  if m.r ≠ other.r ∨ m.c ≠ other.c then .error .dimMismatch
  else pure { m with kernel := m.kernel.mapIdx (fun i v => jsAdd v (jsGet other.kernel i)) }

/-- The `Channel` enum (`Red = 0`, `Green = 1`, `Blue = 2`). -/
inductive Channel where
  | red
  | green
  | blue
deriving DecidableEq, Repr, Fintype

/-- The `Picture` class: three channel matrices. -/
structure Picture where
  red : Matrix
  green : Matrix
  blue : Matrix
deriving DecidableEq, Repr

/-- The `Picture` constructor on the three-matrices branch: rejects
mismatched channel shapes. -/
def Picture.newFromGrids (red green blue : Matrix) : Except Err Picture :=
  if red.r ≠ green.r ∨ green.r ≠ blue.r ∨ red.c ≠ green.c ∨ green.c ≠ blue.c then
    .error .pictureCtorMismatch
  else pure ⟨red, green, blue⟩

/-- The `Picture.r` getter: defensively re-checks that the three channels
agree in row count. -/
def Picture.rGet (p : Picture) : Except Err ℤ :=
  if p.red.r ≠ p.green.r ∨ p.green.r ≠ p.blue.r then .error .rowsMismatch
  else pure p.red.r

/-- The `Picture.c` getter, exactly as in the source: the second comparison
reads `green.r !== blue.c`, comparing the green channel's row count with
the blue channel's column count. -/
def Picture.cGet (p : Picture) : Except Err ℤ :=
  if p.red.c ≠ p.green.c ∨ p.green.r ≠ p.blue.c then .error .colsMismatch
  else pure p.red.c

/-- `Picture.getChannel(channel)`. -/
def Picture.getChannel (p : Picture) : Channel → Matrix
  | .red => p.red
  | .green => p.green
  | .blue => p.blue

/-- The `Convolutor` class: a single square kernel matrix. -/
structure Convolutor where
  matrix : Matrix
deriving DecidableEq, Repr

/-- `new Convolutor(n)`: rejects even `n`, then allocates an `n × n` matrix. -/
def Convolutor.new (n : ℤ) : Except Err Convolutor :=
  if n % 2 = 0 then .error .evenKernelSize
  else do
    let m ← Matrix.new n n
    pure ⟨m⟩

/-- The `Convolutor.n` getter: re-checks squareness on every access. -/
def Convolutor.nGet (cv : Convolutor) : Except Err ℤ :=
  if cv.matrix.r ≠ cv.matrix.c then .error .notSquare else pure cv.matrix.r

/-- `Convolutor.at(r, c)`. -/
def Convolutor.at' (cv : Convolutor) (r c : ℤ) : Except Err JSVal :=
  cv.matrix.at' r c

/-- `Convolutor.getValues()`. -/
def Convolutor.getValues (cv : Convolutor) : List JSVal :=
  cv.matrix.getValues

/-- `Convolutor.setValues(values)`. -/
def Convolutor.setValues (cv : Convolutor) (values : List JSVal) : Except Err Convolutor := do
  let m ← cv.matrix.setValues values
  pure ⟨m⟩

/-- The cells `(i, j)` visited by the nested loops
`for i in [0, a) { for j in [0, b) { ... } }`, in iteration order:
the `d`-th visited cell is `(d / b, d % b)`. -/
def cellList2 (a b : ℕ) : List (ℕ × ℕ) :=
  (List.range (a * b)).map (fun d => (d / b, d % b))

/-- The body of `Convolutor.randomize`'s nested loops: each visited cell is
set to the next sample of the random stream. -/
def randomizeCells (rng : ℕ → ℚ) : List (ℕ × ℕ) → ℕ → Matrix → Except Err (Matrix × ℕ)
  | [], k, m => pure (m, k)
  | (i, j) :: rest, k, m => do
    let m' ← m.set i j (some (rng k))
    randomizeCells rng rest (k + 1) m'

/-- `Convolutor.randomize()`: fills every kernel cell with a fresh random
sample, row by row. -/
def Convolutor.randomize (cv : Convolutor) (rng : ℕ → ℚ) (k0 : ℕ) :
    Except Err (Convolutor × ℕ) := do
  let n ← cv.nGet
  let (m, k) ← randomizeCells rng (cellList2 n.toNat n.toNat) k0 cv.matrix
  pure (⟨m⟩, k)

/-- The accumulation loop of `Convolutor.convolve1`:
`result += this.at(i, j) * matrix.at(r + i, c + j)` over the given cells. -/
def convolve1Loop (cv : Convolutor) (m : Matrix) (r c : ℤ) :
    List (ℕ × ℕ) → JSVal → Except Err JSVal
  | [], acc => pure acc
  | (i, j) :: rest, acc => do
    let kv ← cv.at' i j
    let mv ← m.at' (r + i) (c + j)
    convolve1Loop cv m r c rest (jsAdd acc (jsMul kv mv))

/-- `Convolutor.convolve1(matrix, r, c)`: windowed cross-correlation sum at
anchor `(r, c)`, divided by the kernel's current sum. -/
def Convolutor.convolve1 (cv : Convolutor) (m : Matrix) (r c : ℤ) : Except Err JSVal := do
  let n ← cv.nGet
  let res ← convolve1Loop cv m r c (cellList2 n.toNat n.toNat) (some 0)
  let mod ← cv.matrix.getModulo
  pure (jsDiv res mod)

/-- The write-back loop of `Convolutor.convolve2d`. -/
def convolve2dLoop (cv : Convolutor) (m : Matrix) :
    List (ℕ × ℕ) → Matrix → Except Err Matrix
  | [], res => pure res
  | (i, j) :: rest, res => do
    let v ← cv.convolve1 m i j
    let res' ← res.set i j v
    convolve2dLoop cv m rest res'

/-- `Convolutor.convolve2d(matrix)`: allocates a
`(matrix.r - n) × (matrix.c - n)` result and fills every cell of it with
`convolve1`; loop bounds are read off the (possibly negative) declared
dimensions of the result. -/
def Convolutor.convolve2d (cv : Convolutor) (m : Matrix) : Except Err Matrix := do
  let n ← cv.nGet
  let res ← Matrix.new (m.r - n) (m.c - n)
  convolve2dLoop cv m (cellList2 res.r.toNat res.c.toNat) res

/-- `Convolutor.deconvolve1(val, r, c)`: `kernel.at(r, c) * val / kernel sum`. -/
def Convolutor.deconvolve1 (cv : Convolutor) (val : JSVal) (r c : ℤ) : Except Err JSVal := do
  let mod ← cv.matrix.getModulo
  let kv ← cv.matrix.at' r c
  pure (jsDiv (jsMul kv val) mod)

/-- The write-back loop of `Convolutor.deconvolve2d`, over the quadruples
`((i, j), (ii, jj))` visited by the four nested loops in order.  The write
index is exactly the source's: row `i * n + ii`, column `jj * n + jj`. -/
def deconvolve2dLoop (cv : Convolutor) (m : Matrix) (n : ℤ) :
    List ((ℕ × ℕ) × (ℕ × ℕ)) → Matrix → Except Err Matrix
  | [], res => pure res
  | ((i, j), (ii, jj)) :: rest, res => do
    let val ← m.at' i j
    let conVal ← cv.deconvolve1 val ii jj
    let res' ← res.set (i * n + ii) (jj * n + jj) conVal
    deconvolve2dLoop cv m n rest res'

/-- `Convolutor.deconvolve2d(matrix)`: allocates a
`(matrix.r * n) × (matrix.c * n)` result and runs the quadruple loop. -/
def Convolutor.deconvolve2d (cv : Convolutor) (m : Matrix) : Except Err Matrix := do
  let n ← cv.nGet
  let res ← Matrix.new (m.r * n) (m.c * n)
  let quads := (cellList2 m.r.toNat m.c.toNat).flatMap
    (fun p => (cellList2 n.toNat n.toNat).map (fun q => (p, q)))
  deconvolve2dLoop cv m n quads res

/-- The `WeightedColoredConvolutor` record: one convolutor per input
channel plus the weight vector (`number[]`, indexed by input channel). -/
structure WeightedColoredConvolutor where
  fromRed : Convolutor
  fromGreen : Convolutor
  fromBlue : Convolutor
  weights : List ℚ
deriving DecidableEq, Repr

/-- `makeWeightedColoredConvolutor(n)`: three fresh convolutors and
`new Array(3).fill(1)` as the weights. -/
def makeWeightedColoredConvolutor (n : ℤ) : Except Err WeightedColoredConvolutor := do
  let r ← Convolutor.new n
  let g ← Convolutor.new n
  let b ← Convolutor.new n
  pure ⟨r, g, b, List.replicate 3 1⟩

/-- The `PictureConvolutor` class: kernel size and one
`WeightedColoredConvolutor` per output channel. -/
structure PictureConvolutor where
  n : ℤ
  toRed : WeightedColoredConvolutor
  toGreen : WeightedColoredConvolutor
  toBlue : WeightedColoredConvolutor
deriving DecidableEq, Repr

/-- `new PictureConvolutor(n)`. -/
def PictureConvolutor.new (n : ℤ) : Except Err PictureConvolutor := do
  let r ← makeWeightedColoredConvolutor n
  let g ← makeWeightedColoredConvolutor n
  let b ← makeWeightedColoredConvolutor n
  pure ⟨n, r, g, b⟩

/-- `PictureConvolutor.getWeightedColoredConvolutor(channel)`. -/
def PictureConvolutor.getWeightedColoredConvolutor (pc : PictureConvolutor) :
    Channel → WeightedColoredConvolutor
  | .red => pc.toRed
  | .green => pc.toGreen
  | .blue => pc.toBlue

/-- State-passing update of the combinator selected by a channel (the
source mutates the selected object in place). -/
def PictureConvolutor.setWeightedColoredConvolutor (pc : PictureConvolutor) :
    Channel → WeightedColoredConvolutor → PictureConvolutor
  | .red, w => { pc with toRed := w }
  | .green, w => { pc with toGreen := w }
  | .blue, w => { pc with toBlue := w }

/-- The body of `PictureConvolutor.randomizeChannel` acting on one
`WeightedColoredConvolutor`: randomizes the three kernels, then evaluates
`weights.map(() => Math.random())` — which consumes one random sample per
weight but discards the mapped array, leaving `weights` unchanged. -/
def WeightedColoredConvolutor.randomizeW (w : WeightedColoredConvolutor)
    (rng : ℕ → ℚ) (k0 : ℕ) : Except Err (WeightedColoredConvolutor × ℕ) := do
  let (r, k1) ← w.fromRed.randomize rng k0
  let (g, k2) ← w.fromGreen.randomize rng k1
  let (b, k3) ← w.fromBlue.randomize rng k2
  let _discarded := (List.range w.weights.length).map (fun t => rng (k3 + t))
  pure (⟨r, g, b, w.weights⟩, k3 + w.weights.length)

/-- `PictureConvolutor.randomizeChannel(channel)`. -/
def PictureConvolutor.randomizeChannel (pc : PictureConvolutor) (ch : Channel)
    (rng : ℕ → ℚ) (k0 : ℕ) : Except Err (PictureConvolutor × ℕ) := do
  let (w, k) ← (pc.getWeightedColoredConvolutor ch).randomizeW rng k0
  pure (pc.setWeightedColoredConvolutor ch w, k)

/-- `PictureConvolutor.getConvolutor(fromChannel, toChannel)`. -/
def PictureConvolutor.getConvolutor (pc : PictureConvolutor)
    (fromChannel toChannel : Channel) : Convolutor :=
  match fromChannel with
  | .red => (pc.getWeightedColoredConvolutor toChannel).fromRed
  | .green => (pc.getWeightedColoredConvolutor toChannel).fromGreen
  | .blue => (pc.getWeightedColoredConvolutor toChannel).fromBlue

/-- `PictureConvolutor.getWeights(toChannel)`. -/
def PictureConvolutor.getWeights (pc : PictureConvolutor) (toChannel : Channel) : List ℚ :=
  (pc.getWeightedColoredConvolutor toChannel).weights

/-- `PictureConvolutor.getWeight(fromChannel, toChannel)`:
`getWeights(toChannel)[fromChannel]`, `undefined` when out of range. -/
def PictureConvolutor.getWeight (pc : PictureConvolutor)
    (fromChannel toChannel : Channel) : JSVal :=
  jsGet ((pc.getWeights toChannel).map some)
    (match fromChannel with | .red => 0 | .green => 1 | .blue => 2)

/-- `PictureConvolutor.getWeightSum(toChannel)`: `reduce` over the weights
(throws on an empty array). -/
def PictureConvolutor.getWeightSum (pc : PictureConvolutor) (toChannel : Channel) :
    Except Err ℚ :=
  match pc.getWeights toChannel with
  | [] => .error .emptyReduce
  | w :: rest => pure (rest.foldl (· + ·) w)

/-- `PictureConvolutor.convolvePartial(fromChannel, toChannel, picture)`. -/
def PictureConvolutor.convolvePartial (pc : PictureConvolutor)
    (fromChannel toChannel : Channel) (picture : Picture) : Except Err Matrix := do
  let conv ← (pc.getConvolutor fromChannel toChannel).convolve2d
    (picture.getChannel fromChannel)
  pure (conv.scale (pc.getWeight fromChannel toChannel))

/-- `PictureConvolutor.convolveChannel(toChannel, picture)`:
`convRed.add(convGreen).add(convBlue).scale(getWeightSum(toChannel))`. -/
def PictureConvolutor.convolveChannel (pc : PictureConvolutor)
    (toChannel : Channel) (picture : Picture) : Except Err Matrix := do
  let convRed ← pc.convolvePartial .red toChannel picture
  let convGreen ← pc.convolvePartial .green toChannel picture
  let convBlue ← pc.convolvePartial .blue toChannel picture
  let s1 ← convRed.add convGreen
  let s2 ← s1.add convBlue
  let ws ← pc.getWeightSum toChannel
  pure (s2.scale (some ws))

/-- `PictureConvolutor.convolvePicture(picture)`. -/
def PictureConvolutor.convolvePicture (pc : PictureConvolutor) (picture : Picture) :
    Except Err Picture := do
  let r ← pc.convolveChannel .red picture
  let g ← pc.convolveChannel .green picture
  let b ← pc.convolveChannel .blue picture
  Picture.newFromGrids r g b

/-- `PictureConvolutor.deconvolvePartial(fromChannel, toChannel, picture)`. -/
def PictureConvolutor.deconvolvePartial (pc : PictureConvolutor)
    (fromChannel toChannel : Channel) (picture : Picture) : Except Err Matrix := do
  let deconv ← (pc.getConvolutor fromChannel toChannel).deconvolve2d
    (picture.getChannel fromChannel)
  pure (deconv.scale (pc.getWeight fromChannel toChannel))

/-- `PictureConvolutor.deconvolveChannel(toChannel, picture)`. -/
def PictureConvolutor.deconvolveChannel (pc : PictureConvolutor)
    (toChannel : Channel) (picture : Picture) : Except Err Matrix := do
  let deconvRed ← pc.deconvolvePartial .red toChannel picture
  let deconvGreen ← pc.deconvolvePartial .green toChannel picture
  let deconvBlue ← pc.deconvolvePartial .blue toChannel picture
  let s1 ← deconvRed.add deconvGreen
  let s2 ← s1.add deconvBlue
  let ws ← pc.getWeightSum toChannel
  pure (s2.scale (some ws))

/-- `PictureConvolutor.deconvolvePicture(picture)`. -/
def PictureConvolutor.deconvolvePicture (pc : PictureConvolutor) (picture : Picture) :
    Except Err Picture := do
  let r ← pc.deconvolveChannel .red picture
  let g ← pc.deconvolveChannel .green picture
  let b ← pc.deconvolveChannel .blue picture
  Picture.newFromGrids r g b

/-! ### Array model lemmas -/

theorem jsSet_length (l : List JSVal) (i : ℤ) (hi : 0 ≤ i) (v : JSVal) :
    (jsSet l i v).length = max l.length (i.toNat + 1) := by
  unfold jsSet
  rw [if_pos hi]
  by_cases h : i.toNat < l.length
  · rw [if_pos h, List.length_set]; omega
  · rw [if_neg h]; simp [List.length_append]; omega

theorem jsGet_jsSet_self (l : List JSVal) (i : ℤ) (hi : 0 ≤ i) (v : JSVal) :
    jsGet (jsSet l i v) i = v := by
  unfold jsGet jsSet
  rw [if_pos hi]
  by_cases h : i.toNat < l.length
  · rw [if_pos h, dif_pos ⟨hi, by simpa using h⟩]
    simp [List.get_eq_getElem]
  · rw [if_neg h]
    push_neg at h
    have hlen : (l ++ List.replicate (i.toNat - l.length) none ++ [v]).length
        = i.toNat + 1 := by
      simp [List.length_append]; omega
    rw [dif_pos ⟨hi, by omega⟩]
    simp only [List.get_eq_getElem]
    have h1 : (l ++ List.replicate (i.toNat - l.length) none).length ≤ i.toNat := by
      simp [List.length_append]; omega
    rw [List.getElem_append_right h1]
    simp [List.length_append]

theorem jsGet_jsSet_ne (l : List JSVal) (i i' : ℤ) (hne : i' ≠ i) (v : JSVal) :
    jsGet (jsSet l i v) i' = jsGet l i' := by
  unfold jsGet jsSet
  by_cases hi : 0 ≤ i
  · rw [if_pos hi]
    by_cases hi' : 0 ≤ i'
    · have htn : i'.toNat ≠ i.toNat := fun h =>
        hne (by rw [← Int.toNat_of_nonneg hi', ← Int.toNat_of_nonneg hi, h])
      by_cases h : i.toNat < l.length
      · rw [if_pos h]
        by_cases h' : i'.toNat < l.length
        · rw [dif_pos ⟨hi', by simpa using h'⟩, dif_pos ⟨hi', h'⟩]
          simp only [List.get_eq_getElem]
          exact List.getElem_set_ne (fun hh => htn hh.symm) _
        · rw [dif_neg (by simp; omega), dif_neg (by simp; omega)]
      · rw [if_neg h]
        push_neg at h
        have hlen : (l ++ List.replicate (i.toNat - l.length) none ++ [v]).length
            = i.toNat + 1 := by
          simp [List.length_append]; omega
        by_cases h' : i'.toNat < l.length
        · rw [dif_pos ⟨hi', by omega⟩, dif_pos ⟨hi', h'⟩]
          simp only [List.get_eq_getElem]
          rw [List.getElem_append_left (by simp [List.length_append]; omega),
            List.getElem_append_left h']
        · by_cases h2 : i'.toNat < i.toNat
          · rw [dif_pos ⟨hi', by omega⟩, dif_neg (by simp; omega)]
            simp only [List.get_eq_getElem]
            rw [List.getElem_append_left (by simp [List.length_append]; omega),
              List.getElem_append_right (le_of_not_lt h')]
            simp
          · rw [dif_neg (by simp; omega), dif_neg (by simp; omega)]
    · rw [dif_neg (fun hh => hi' hh.1), dif_neg (fun hh => hi' hh.1)]
  · rw [if_neg hi]

/-! ### Matrix access lemmas -/

theorem Matrix.checkBounds_ok (m : Matrix) {r c : ℤ} (hr : r < m.r) (hc : c < m.c) :
    m.checkBounds r c = .ok () := by
  unfold Matrix.checkBounds
  rw [if_neg (by omega)]
  rfl

theorem Matrix.at'_eq_of_lt (m : Matrix) {i j : ℤ} (hi : i < m.r) (hj : j < m.c) :
    m.at' i j = .ok (jsGet m.kernel (i + j * m.c)) := by
  unfold Matrix.at' Matrix.index Matrix.checkBounds
  rw [if_neg (by omega : ¬(m.r ≤ i ∨ m.c ≤ j))]
  rfl

theorem Matrix.set_eq_of_lt (m : Matrix) {i j : ℤ} (hi : i < m.r) (hj : j < m.c)
    (v : JSVal) :
    m.set i j v = .ok { m with kernel := jsSet m.kernel (i + j * m.c) v } := by
  unfold Matrix.set Matrix.index Matrix.checkBounds
  rw [if_neg (by omega : ¬(m.r ≤ i ∨ m.c ≤ j))]
  rfl

/-! ### Claim theorems (first batch) -/

/-- C6: for every Grid of shape `(r, c)` and every in-bounds index `(i, j)`
with `0 ≤ i < r` and `0 ≤ j < c`, reading `at(i, j)` immediately after
`set(i, j, v)` returns `v`.  (Both go through the same — argument-swapped —
flattening arithmetic, so the round trip holds even where that arithmetic
leaves the nominal `r*c` range.) -/
theorem set_then_at_same_cell (m : Matrix) (i j : ℤ) (v : ℚ)
    (hi0 : 0 ≤ i) (hir : i < m.r) (hj0 : 0 ≤ j) (hjc : j < m.c) :
    ∃ m', m.set i j (some v) = .ok m' ∧ m'.at' i j = .ok (some v) := by
  refine ⟨_, m.set_eq_of_lt hir hjc (some v), ?_⟩
  have hc0 : (0 : ℤ) < m.c := lt_of_le_of_lt hj0 hjc
  have hidx : 0 ≤ i + j * m.c := by
    have := mul_nonneg hj0 (le_of_lt hc0)
    omega
  rw [Matrix.at'_eq_of_lt ⟨m.r, m.c, jsSet m.kernel (i + j * m.c) (some v)⟩ hir hjc]
  simpa using jsGet_jsSet_self m.kernel (i + j * m.c) hidx (some v)

theorem set_then_at_same_cell_w :
    ∃ m', (Matrix.mk 2 2 (List.replicate 4 (some 0))).set 0 1 (some 7) = .ok m' ∧
      m'.at' 0 1 = .ok (some 7) :=
  set_then_at_same_cell ⟨2, 2, List.replicate 4 (some 0)⟩ 0 1 7
    (by decide) (by decide) (by decide) (by decide)

/-- C10: the bounds check in `at`/`set` rejects exactly the indices with
`r >= rows` or `c >= cols`; a negative index such as `at(-1, 0)` passes the
check and reaches the flattening arithmetic (the read completes without an
OutOfBounds error, returning the out-of-range/undefined value). -/
theorem bounds_check_upper_only (m : Matrix) (hr : -1 < m.r) (hc : 0 < m.c) :
    (∀ r c : ℤ, (∃ e, m.checkBounds r c = .error e) ↔ (m.r ≤ r ∨ m.c ≤ c)) ∧
    (∃ v, m.at' (-1) 0 = .ok v) := by
  constructor
  · intro r c
    unfold Matrix.checkBounds
    constructor
    · rintro ⟨e, he⟩
      by_contra hcon
      rw [if_neg hcon] at he
      exact absurd he (by simp [pure, Except.pure])
    · intro h
      exact ⟨.outOfBounds, by rw [if_pos h]⟩
  · exact ⟨_, m.at'_eq_of_lt (by omega) (by omega)⟩

theorem bounds_check_upper_only_w :
    ((∀ r c : ℤ,
        (∃ e, (Matrix.mk 1 1 [some 0]).checkBounds r c = .error e) ↔
          ((Matrix.mk 1 1 [some 0]).r ≤ r ∨ (Matrix.mk 1 1 [some 0]).c ≤ c)) ∧
      (∃ v, (Matrix.mk 1 1 [some 0]).at' (-1) 0 = .ok v)) :=
  bounds_check_upper_only ⟨1, 1, [some 0]⟩ (by decide) (by decide)

/-- C3 (code bug): the backing-array-length invariant is broken by an
in-bounds `set`.  On a `1 × 2` Grid the index `(0, 1)` passes the bounds
check, but the argument-swapped flattening arithmetic computes
`0 + 1 * 2 = 2`, one past the end of the 2-element backing array, and the
JavaScript write extends the array to length `3 ≠ 1 * 2`. -/
theorem inbounds_set_breaks_length_invariant :
    ((Matrix.new 1 2).bind (fun m => m.set 0 1 (some 5))).map
      (fun m => m.kernel.length) = .ok 3 := by decide

/-- C2 (code bug): on a Channel Image whose three channels all share the
consistent shape `2 × 3`, the `cols()` getter fails (its second comparison
reads `green.r !== blue.c`, comparing a row count with a column count),
while `rows()` succeeds — contradicting the claim that both accessors
succeed on shape-consistent channels. -/
theorem cols_getter_fails_on_consistent_picture :
    ((do
      let m ← Matrix.new 2 3
      let p ← Picture.newFromGrids m m m
      p.cGet : Except Err ℤ) = .error .colsMismatch) ∧
    ((do
      let m ← Matrix.new 2 3
      let p ← Picture.newFromGrids m m m
      p.rGet : Except Err ℤ) = .ok 2) := by decide

/-- C9: convolving a `4 × 4` all-ones Grid with a `3 × 3` all-ones kernel
(kernel sum 9) yields a `1 × 1` Grid whose single entry is `9 / 9 = 1`. -/
theorem convolve_all_ones_4x4_3x3 :
    (do
      let cv ← Convolutor.new 3
      let cv ← cv.setValues (List.replicate 9 (some 1))
      let g ← Matrix.new 4 4
      let g ← g.setValues (List.replicate 16 (some 1))
      cv.convolve2d g : Except Err Matrix) = .ok ⟨1, 1, [some 1]⟩ := by decide

/-- C1 (code bug): `deconvolve2d` does not write `deconvolve1` values at
`(i*n + ii, j*n + jj)`; its write index is `(i*n + ii, jj*n + jj)`.
Already for a `1 × 1` input and a `3 × 3` all-ones kernel, the second inner
iteration (`ii = 0, jj = 1`) attempts column `1*3 + 1 = 4` of the
3-column output and the whole call aborts with OutOfBounds. -/
theorem deconvolve2d_write_index_out_of_bounds :
    (do
      let cv ← Convolutor.new 3
      let cv ← cv.setValues (List.replicate 9 (some 1))
      let g ← Matrix.new 1 1
      let g ← g.setValues [some 2]
      cv.deconvolve2d g : Except Err Matrix) = .error .outOfBounds := by decide

/-- C8 (counterexample): with a `3 × 3` kernel and a `1 × 1` input Grid
(`rows < n` and `cols < n`), `convolve2d` does not fail: the allocated
length is `(1-3) * (1-3) = 4 ≥ 0`, so it returns a degenerate Grid with
declared dimensions `-2 × -2` instead of raising an error. -/
theorem convolve2d_undersized_returns_grid :
    (do
      let cv ← Convolutor.new 3
      let g ← Matrix.new 1 1
      cv.convolve2d g : Except Err Matrix)
      = .ok ⟨-2, -2, List.replicate 4 (some 0)⟩ := by decide

/-- C8 (amended): for an input Grid with `rows < n` or `cols < n`,
`convolve2d` fails with the invalid-array-length error exactly when the
allocated length `(cols - n) * (rows - n)` is negative (one dimension
smaller than `n`, the other larger); otherwise (e.g. both dimensions below
`n`) it returns a degenerate Grid with non-positive declared dimensions
instead of failing. -/
theorem convolve2d_undersized_behavior (cv : Convolutor) (n : ℤ)
    (hn : cv.nGet = .ok n) (m : Matrix) (hsmall : m.r < n ∨ m.c < n) :
    cv.convolve2d m =
      if (m.c - n) * (m.r - n) < 0 then .error .invalidArrayLength
      else .ok ⟨m.r - n, m.c - n, List.replicate ((m.c - n) * (m.r - n)).toNat (some 0)⟩ := by
  unfold Convolutor.convolve2d
  rw [hn]
  by_cases hlt : (m.c - n) * (m.r - n) < 0
  · rw [if_pos hlt]
    show Matrix.new (m.r - n) (m.c - n) >>= _ = _
    unfold Matrix.new
    rw [if_pos hlt]
    rfl
  · rw [if_neg hlt]
    show Matrix.new (m.r - n) (m.c - n) >>= _ = _
    unfold Matrix.new
    rw [if_neg hlt]
    have hcl : cellList2 (m.r - n).toNat (m.c - n).toNat = [] := by
      rcases hsmall with h | h
      · have : (m.r - n).toNat = 0 := by omega
        simp [cellList2, this]
      · have : (m.c - n).toNat = 0 := by omega
        simp [cellList2, this]
    show convolve2dLoop cv m (cellList2 _ _) _ = _
    rw [hcl]
    rfl

theorem convolve2d_undersized_behavior_w :
    (Convolutor.mk ⟨3, 3, List.replicate 9 (some 0)⟩).convolve2d ⟨1, 1, [some 0]⟩ =
      if ((1 : ℤ) - 3) * ((1 : ℤ) - 3) < 0 then .error .invalidArrayLength
      else .ok ⟨(1 : ℤ) - 3, (1 : ℤ) - 3,
        List.replicate (((1 : ℤ) - 3) * ((1 : ℤ) - 3)).toNat (some 0)⟩ :=
  convolve2d_undersized_behavior ⟨⟨3, 3, List.replicate 9 (some 0)⟩⟩ 3 (by decide)
    ⟨1, 1, [some 0]⟩ (by decide)

/-- C5: for a Channel Combinator with weights `[wr, wg, wb]`,
`convolveChannel` is exactly the documented combination rule: each input
channel's Grid is convolved by the matching kernel, scaled by that
channel's weight, the three partials are summed elementwise with `add`,
and the sum is rescaled by the weight total `wr + wg + wb`. -/
theorem convolveChannel_weighted_combination
    (pc : PictureConvolutor) (ch : Channel) (pic : Picture) (wr wg wb : ℚ)
    (hw : pc.getWeights ch = [wr, wg, wb])
    (cR cG cB : Matrix)
    (hR : (pc.getConvolutor .red ch).convolve2d (pic.getChannel .red) = .ok cR)
    (hG : (pc.getConvolutor .green ch).convolve2d (pic.getChannel .green) = .ok cG)
    (hB : (pc.getConvolutor .blue ch).convolve2d (pic.getChannel .blue) = .ok cB)
    (s1 : Matrix) (hs1 : (cR.scale (some wr)).add (cG.scale (some wg)) = .ok s1)
    (s2 : Matrix) (hs2 : s1.add (cB.scale (some wb)) = .ok s2) :
    pc.convolveChannel ch pic = .ok (s2.scale (some (wr + wg + wb))) := by
  have hw0 : pc.getWeight .red ch = some wr := by
    simp [PictureConvolutor.getWeight, hw, jsGet]
  have hw1 : pc.getWeight .green ch = some wg := by
    simp [PictureConvolutor.getWeight, hw, jsGet]
  have hw2 : pc.getWeight .blue ch = some wb := by
    simp [PictureConvolutor.getWeight, hw, jsGet]
  have hws : pc.getWeightSum ch = .ok (wr + wg + wb) := by
    unfold PictureConvolutor.getWeightSum
    rw [hw]
    rfl
  unfold PictureConvolutor.convolveChannel PictureConvolutor.convolvePartial
  simp only [bind, Except.bind, pure, Except.pure, hR, hG, hB, hw0, hw1, hw2, hws, hs1, hs2]

/-- Concrete size-1 transformer and 2×2 all-ones picture used by witnesses. -/
def convOne : Convolutor := ⟨⟨1, 1, [some 0]⟩⟩

def wccOne : WeightedColoredConvolutor := ⟨convOne, convOne, convOne, [1, 1, 1]⟩

def pcOne : PictureConvolutor := ⟨1, wccOne, wccOne, wccOne⟩

def gridOnes22 : Matrix := ⟨2, 2, List.replicate 4 (some 1)⟩

def picOnes22 : Picture := ⟨gridOnes22, gridOnes22, gridOnes22⟩

theorem convolveChannel_weighted_combination_w :
    pcOne.convolveChannel .red picOnes22 =
      .ok ((Matrix.mk 1 1 [none]).scale (some (1 + 1 + 1))) :=
  convolveChannel_weighted_combination pcOne .red picOnes22 1 1 1 rfl
    ⟨1, 1, [none]⟩ ⟨1, 1, [none]⟩ ⟨1, 1, [none]⟩
    (by decide) (by decide) (by decide)
    ⟨1, 1, [none]⟩ (by decide) ⟨1, 1, [none]⟩ (by decide)

/-! ### Success and shape lemmas for `convolve2d` -/

theorem cellList2_mem {a b : ℕ} {p : ℕ × ℕ} (hp : p ∈ cellList2 a b) :
    p.1 < a ∧ p.2 < b := by
  unfold cellList2 at hp
  simp only [List.mem_map, List.mem_range] at hp
  obtain ⟨d, hd, rfl⟩ := hp
  rcases Nat.eq_zero_or_pos b with hb | hb
  · subst hb; omega
  · exact ⟨Nat.div_lt_of_lt_mul (Nat.mul_comm a b ▸ hd), Nat.mod_lt _ hb⟩

theorem Matrix.getModulo_ok (m : Matrix) (hk : m.kernel ≠ []) :
    ∃ v, m.getModulo = .ok v := by
  unfold Matrix.getModulo
  rcases hke : m.kernel with _ | ⟨v, rest⟩
  · exact absurd hke hk
  · exact ⟨_, rfl⟩

theorem Convolutor.nGet_eq (cv : Convolutor) {n : ℤ} (hn : cv.nGet = .ok n) :
    cv.matrix.r = n ∧ cv.matrix.c = n := by
  unfold Convolutor.nGet at hn
  by_cases h : cv.matrix.r = cv.matrix.c
  · rw [if_neg (by omega)] at hn
    cases hn
    exact ⟨rfl, h.symm⟩
  · rw [if_pos h] at hn
    cases hn

theorem convolve1Loop_ok (cv : Convolutor) (m : Matrix) (r c : ℤ) :
    ∀ (l : List (ℕ × ℕ)) (acc : JSVal),
      (∀ p ∈ l, (p.1 : ℤ) < cv.matrix.r ∧ (p.2 : ℤ) < cv.matrix.c ∧
        r + p.1 < m.r ∧ c + p.2 < m.c) →
      ∃ v, convolve1Loop cv m r c l acc = .ok v := by
  intro l
  induction l with
  | nil => exact fun acc _ => ⟨acc, rfl⟩
  | cons p rest ih =>
    intro acc hp
    obtain ⟨i, j⟩ := p
    obtain ⟨h1, h2, h3, h4⟩ := hp (i, j) (List.mem_cons_self _ _)
    dsimp only at h1 h2 h3 h4
    obtain ⟨v, hv⟩ := ih _ (fun q hq => hp q (List.mem_cons_of_mem _ hq))
    refine ⟨v, ?_⟩
    show (do
      let kv ← cv.at' i j
      let mv ← m.at' (r + i) (c + j)
      convolve1Loop cv m r c rest (jsAdd acc (jsMul kv mv))) = _
    rw [Convolutor.at', Matrix.at'_eq_of_lt _ h1 h2, Matrix.at'_eq_of_lt _ h3 h4]
    exact hv

theorem Convolutor.convolve1_ok (cv : Convolutor) (m : Matrix) (n : ℤ)
    (hn : cv.nGet = .ok n) (hpos : 1 ≤ n) (hk : cv.matrix.kernel ≠ [])
    (r c : ℤ) (hrm : r + n ≤ m.r) (hcm : c + n ≤ m.c) :
    ∃ v, cv.convolve1 m r c = .ok v := by
  obtain ⟨hr, hc⟩ := cv.nGet_eq hn
  obtain ⟨v, hv⟩ := convolve1Loop_ok cv m r c (cellList2 n.toNat n.toNat) (some 0)
    (by
      intro p hp
      obtain ⟨hp1, hp2⟩ := cellList2_mem hp
      omega)
  obtain ⟨s, hs⟩ := cv.matrix.getModulo_ok hk
  unfold Convolutor.convolve1
  rw [hn]
  simp only [bind, Except.bind, hv, hs]
  exact ⟨_, rfl⟩

theorem convolve2dLoop_ok (cv : Convolutor) (m : Matrix) (n : ℤ)
    (hn : cv.nGet = .ok n) (hpos : 1 ≤ n) (hk : cv.matrix.kernel ≠ []) :
    ∀ (l : List (ℕ × ℕ)) (res : Matrix),
      (∀ p ∈ l, (p.1 : ℤ) < res.r ∧ (p.2 : ℤ) < res.c ∧
        (p.1 : ℤ) + n ≤ m.r ∧ (p.2 : ℤ) + n ≤ m.c) →
      ∃ res', convolve2dLoop cv m l res = .ok res' ∧ res'.r = res.r ∧ res'.c = res.c := by
  intro l
  induction l with
  | nil => exact fun res _ => ⟨res, rfl, rfl, rfl⟩
  | cons p rest ih =>
    intro res hp
    obtain ⟨i, j⟩ := p
    obtain ⟨h1, h2, h3, h4⟩ := hp (i, j) (List.mem_cons_self _ _)
    dsimp only at h1 h2 h3 h4
    obtain ⟨v, hv⟩ := cv.convolve1_ok m n hn hpos hk i j h3 h4
    obtain ⟨res', hres', hr', hc'⟩ :=
      ih ⟨res.r, res.c, jsSet res.kernel (↑i + ↑j * res.c) v⟩
        (fun q hq => hp q (List.mem_cons_of_mem _ hq))
    refine ⟨res', ?_, hr', hc'⟩
    show (do
      let v ← cv.convolve1 m i j
      let res2 ← res.set i j v
      convolve2dLoop cv m rest res2) = _
    simp only [bind, Except.bind, hv, Matrix.set_eq_of_lt res h1 h2 v, hres']

theorem Convolutor.convolve2d_ok (cv : Convolutor) (m : Matrix) (n : ℤ)
    (hn : cv.nGet = .ok n) (hpos : 1 ≤ n) (hk : cv.matrix.kernel ≠ [])
    (hrm : n ≤ m.r) (hcm : n ≤ m.c) :
    ∃ res, cv.convolve2d m = .ok res ∧ res.r = m.r - n ∧ res.c = m.c - n := by
  have hnew : ¬((m.c - n) * (m.r - n) < 0) :=
    not_lt.mpr (mul_nonneg (by omega) (by omega))
  obtain ⟨res', hres', hr', hc'⟩ :=
    convolve2dLoop_ok cv m n hn hpos hk
      (cellList2 (m.r - n).toNat (m.c - n).toNat)
      ⟨m.r - n, m.c - n, List.replicate ((m.c - n) * (m.r - n)).toNat (some 0)⟩
      (by
        intro p hp
        obtain ⟨hp1, hp2⟩ := cellList2_mem hp
        dsimp only
        omega)
  unfold Convolutor.convolve2d
  rw [hn]
  simp only [bind, Except.bind]
  unfold Matrix.new
  rw [if_neg hnew]
  simp only [pure, Except.pure]
  exact ⟨res', hres', by rw [hr'], by rw [hc']⟩

theorem Matrix.add_ok (m1 m2 : Matrix) (hr : m1.r = m2.r) (hc : m1.c = m2.c) :
    ∃ s, m1.add m2 = .ok s ∧ s.r = m1.r ∧ s.c = m1.c := by
  unfold Matrix.add
  rw [if_neg (by simp [hr, hc])]
  exact ⟨_, rfl, rfl, rfl⟩

theorem PictureConvolutor.getWeightSum_ok (pc : PictureConvolutor) (ch : Channel)
    (h : pc.getWeights ch ≠ []) : ∃ s, pc.getWeightSum ch = .ok s := by
  unfold PictureConvolutor.getWeightSum
  rcases hke : pc.getWeights ch with _ | ⟨w, rest⟩
  · exact absurd hke h
  · exact ⟨_, rfl⟩

/-- A convolutor whose kernel matrix is square of side `n` with a nonempty
backing array (true of every constructed convolutor, and preserved by
`setValues` and `randomize`). -/
@[reducible] def Convolutor.HasSize (cv : Convolutor) (n : ℤ) : Prop :=
  cv.nGet = .ok n ∧ cv.matrix.kernel ≠ []

/-- A Picture Transformer whose nine kernels all have size `n` and whose
three weight vectors are nonempty (true of every constructed transformer). -/
@[reducible] def PictureConvolutor.WellFormed (pc : PictureConvolutor) (n : ℤ) : Prop :=
  (∀ f t : Channel, (pc.getConvolutor f t).HasSize n) ∧
  (∀ t : Channel, pc.getWeights t ≠ [])

/-- All three channels of the picture have declared shape `R × C`. -/
@[reducible] def Picture.HasShape (pic : Picture) (R C : ℤ) : Prop :=
  ∀ f : Channel, (pic.getChannel f).r = R ∧ (pic.getChannel f).c = C

theorem PictureConvolutor.convolveChannel_ok (pc : PictureConvolutor) (ch : Channel)
    (pic : Picture) (n : ℤ) (hpos : 1 ≤ n) (hwf : pc.WellFormed n)
    (R C : ℤ) (hshape : pic.HasShape R C) (hR : n ≤ R) (hC : n ≤ C) :
    ∃ out, pc.convolveChannel ch pic = .ok out ∧ out.r = R - n ∧ out.c = C - n := by
  obtain ⟨hcv, hwts⟩ := hwf
  have hpart : ∀ f : Channel, ∃ cm, pc.convolvePartial f ch pic = .ok cm ∧
      cm.r = R - n ∧ cm.c = C - n := by
    intro f
    obtain ⟨hn, hk⟩ := hcv f ch
    obtain ⟨hfr, hfc⟩ := hshape f
    obtain ⟨res, hres, hr2, hc2⟩ := (pc.getConvolutor f ch).convolve2d_ok
      (pic.getChannel f) n hn hpos hk (by omega) (by omega)
    refine ⟨res.scale (pc.getWeight f ch), ?_, ?_, ?_⟩
    · unfold PictureConvolutor.convolvePartial
      simp only [bind, Except.bind, hres]
      rfl
    · show res.r = R - n
      omega
    · show res.c = C - n
      omega
  obtain ⟨cR, hcR, hcRr, hcRc⟩ := hpart .red
  obtain ⟨cG, hcG, hcGr, hcGc⟩ := hpart .green
  obtain ⟨cB, hcB, hcBr, hcBc⟩ := hpart .blue
  obtain ⟨s1, hs1, hs1r, hs1c⟩ := cR.add_ok cG (by omega) (by omega)
  obtain ⟨s2, hs2, hs2r, hs2c⟩ := s1.add_ok cB (by omega) (by omega)
  obtain ⟨ws, hws⟩ := pc.getWeightSum_ok ch (hwts ch)
  refine ⟨s2.scale (some ws), ?_, ?_, ?_⟩
  · unfold PictureConvolutor.convolveChannel
    simp only [bind, Except.bind, hcR, hcG, hcB, hs1, hs2, hws]
    rfl
  · show s2.r = R - n
    omega
  · show s2.c = C - n
    omega

/-- C7: a Picture Transformer with kernel size `n ≥ 1` applied to an
`R × C` Channel Image with `R ≥ n` and `C ≥ n` succeeds and returns a
Channel Image whose three channels all have shape `(R - n) × (C - n)`. -/
theorem convolvePicture_output_shape (pc : PictureConvolutor) (n : ℤ) (hpos : 1 ≤ n)
    (hwf : pc.WellFormed n) (pic : Picture) (R C : ℤ) (hshape : pic.HasShape R C)
    (hR : n ≤ R) (hC : n ≤ C) :
    ∃ out, pc.convolvePicture pic = .ok out ∧ out.HasShape (R - n) (C - n) := by
  obtain ⟨oR, hoR, hoRr, hoRc⟩ := pc.convolveChannel_ok .red pic n hpos hwf R C hshape hR hC
  obtain ⟨oG, hoG, hoGr, hoGc⟩ := pc.convolveChannel_ok .green pic n hpos hwf R C hshape hR hC
  obtain ⟨oB, hoB, hoBr, hoBc⟩ := pc.convolveChannel_ok .blue pic n hpos hwf R C hshape hR hC
  refine ⟨⟨oR, oG, oB⟩, ?_, ?_⟩
  · unfold PictureConvolutor.convolvePicture
    simp only [bind, Except.bind, hoR, hoG, hoB]
    unfold Picture.newFromGrids
    rw [if_neg (by omega)]
    rfl
  · intro f
    cases f
    exacts [⟨hoRr, hoRc⟩, ⟨hoGr, hoGc⟩, ⟨hoBr, hoBc⟩]

theorem convolvePicture_output_shape_w :
    ∃ out, pcOne.convolvePicture picOnes22 = .ok out ∧
      out.HasShape ((2 : ℤ) - 1) ((2 : ℤ) - 1) :=
  convolvePicture_output_shape pcOne 1 (by decide) (by decide) picOnes22 2 2
    (by decide) (by decide) (by decide)

/-! ### Randomization lemmas -/

theorem cellList2_length (a b : ℕ) : (cellList2 a b).length = a * b := by
  simp [cellList2]

theorem cellList2_nodup (a b : ℕ) : (cellList2 a b).Nodup := by
  unfold cellList2
  refine List.Nodup.map ?_ (List.nodup_range _)
  intro x y h
  have h1 : x / b = y / b := congrArg Prod.fst h
  have h2 : x % b = y % b := congrArg Prod.snd h
  calc x = b * (x / b) + x % b := (Nat.div_add_mod x b).symm
  _ = b * (y / b) + y % b := by rw [h1, h2]
  _ = y := Nat.div_add_mod y b

theorem cellList2_getElem (a b d : ℕ) (hd : d < a * b) :
    (cellList2 a b).get ⟨d, by rw [cellList2_length]; exact hd⟩ = (d / b, d % b) := by
  simp [cellList2, List.get_eq_getElem]

/-- Position of the first occurrence of a cell in a cell list (how many
random samples the nested loops consume before reaching it). -/
def posIn (p : ℕ × ℕ) : List (ℕ × ℕ) → ℕ
  | [] => 0
  | q :: rest => if p = q then 0 else posIn p rest + 1

theorem posIn_cons_self (p : ℕ × ℕ) (l : List (ℕ × ℕ)) : posIn p (p :: l) = 0 := by
  simp [posIn]

theorem posIn_cons_ne {p q : ℕ × ℕ} (h : p ≠ q) (l : List (ℕ × ℕ)) :
    posIn p (q :: l) = posIn p l + 1 := by
  simp [posIn, h]

theorem posIn_eq_of_getElem (p : ℕ × ℕ) :
    ∀ (l : List (ℕ × ℕ)) (d : ℕ) (hd : d < l.length),
      l.get ⟨d, hd⟩ = p → l.Nodup → posIn p l = d := by
  intro l
  induction l with
  | nil => intro d hd; simp at hd
  | cons q rest ih =>
    intro d hd hget hnd
    cases d with
    | zero =>
      simp only [List.get] at hget
      simp [posIn, hget.symm]
    | succ e =>
      simp only [List.get] at hget
      have he : e < rest.length := by simpa using hd
      have hmem : p ∈ rest := by
        rw [← hget]
        exact rest.get_mem _ _
      have hpq : p ≠ q := by
        intro h
        subst h
        exact (List.nodup_cons.mp hnd).1 hmem
      rw [posIn_cons_ne hpq, ih e he hget (List.Nodup.of_cons hnd)]

theorem cellList2_cell_lt {n i j : ℕ} (hi : i < n) (hj : j < n) :
    i * n + j < n * n := by
  have hmul : (i + 1) * n = i * n + n := by ring
  have hle : (i + 1) * n ≤ n * n := Nat.mul_le_mul_right n hi
  omega

theorem cellList2_get_cell {n i j : ℕ} (hi : i < n) (hj : j < n) :
    (cellList2 n n).get
      ⟨i * n + j, by rw [cellList2_length]; exact cellList2_cell_lt hi hj⟩ = (i, j) := by
  have hn : 0 < n := by omega
  have hsplit : i * n + j = j + n * i := by ring
  have hdiv : (i * n + j) / n = i := by
    rw [hsplit, Nat.add_mul_div_left j i hn, Nat.div_eq_of_lt hj]
    omega
  have hmod : (i * n + j) % n = j := by
    rw [hsplit, Nat.add_mul_mod_self_left, Nat.mod_eq_of_lt hj]
  simp [cellList2, List.get_eq_getElem, hdiv, hmod]

theorem cellList2_mem_of_lt {n i j : ℕ} (hi : i < n) (hj : j < n) :
    (i, j) ∈ cellList2 n n := by
  rw [← cellList2_get_cell hi hj]
  exact List.get_mem _ _ _

theorem cellList2_posIn {n i j : ℕ} (hi : i < n) (hj : j < n) :
    posIn (i, j) (cellList2 n n) = i * n + j :=
  posIn_eq_of_getElem (i, j) (cellList2 n n) (i * n + j)
    (by rw [cellList2_length]; exact cellList2_cell_lt hi hj)
    (cellList2_get_cell hi hj) (cellList2_nodup n n)

theorem randomizeCells_spec (rng : ℕ → ℚ) (N : ℤ) :
    ∀ (l : List (ℕ × ℕ)) (k : ℕ) (m : Matrix),
      m.r = N → m.c = N → l.Nodup →
      (∀ p ∈ l, (p.1 : ℤ) < N ∧ (p.2 : ℤ) < N) →
      ∃ m', randomizeCells rng l k m = .ok (m', k + l.length) ∧
        m'.r = N ∧ m'.c = N ∧
        ∀ i j : ℕ, (i : ℤ) < N → (j : ℤ) < N →
          m'.at' i j = if (i, j) ∈ l
            then .ok (some (rng (k + posIn (i, j) l)))
            else m.at' i j := by
  intro l
  induction l with
  | nil =>
    intro k m hr hc _ _
    exact ⟨m, rfl, hr, hc, fun i j _ _ => by simp⟩
  | cons p rest ih =>
    intro k m hr hc hnd hb
    obtain ⟨a, b⟩ := p
    obtain ⟨ha, hbb⟩ := hb (a, b) (List.mem_cons_self _ _)
    dsimp only at ha hbb
    have hA : (a : ℤ) < m.r := by omega
    have hB : (b : ℤ) < m.c := by omega
    obtain ⟨m', hm', hr', hc', hat⟩ :=
      ih (k + 1) ⟨m.r, m.c, jsSet m.kernel (↑a + ↑b * m.c) (some (rng k))⟩ hr hc
        (List.Nodup.of_cons hnd) (fun q hq => hb q (List.mem_cons_of_mem _ hq))
    refine ⟨m', ?_, hr', hc', ?_⟩
    · show (do
        let m2 ← m.set a b (some (rng k))
        randomizeCells rng rest (k + 1) m2) = _
      have hk : k + ((a, b) :: rest).length = (k + 1) + rest.length := by
        simp [List.length_cons]
        omega
      rw [hk]
      simp only [bind, Except.bind, Matrix.set_eq_of_lt m hA hB (some (rng k))]
      exact hm'
    · intro i j hi hj
      have hN : (0 : ℤ) < N := by omega
      by_cases hmem : (i, j) ∈ (a, b) :: rest
      · rw [if_pos hmem]
        by_cases hij : (i, j) = (a, b)
        · have hia : i = a := congrArg Prod.fst hij
          have hjb : j = b := congrArg Prod.snd hij
          subst hia hjb
          have hnotin : (i, j) ∉ rest := (List.nodup_cons.mp hnd).1
          rw [hat i j hi hj, if_neg hnotin]
          rw [Matrix.at'_eq_of_lt ⟨m.r, m.c, jsSet m.kernel (↑i + ↑j * m.c) (some (rng k))⟩ hA hB]
          have hidx : (0 : ℤ) ≤ ↑i + ↑j * m.c := by
            have := mul_nonneg (show (0:ℤ) ≤ (j:ℤ) by positivity) (show (0:ℤ) ≤ m.c by omega)
            omega
          rw [posIn_cons_self]
          simp only [jsGet_jsSet_self m.kernel (↑i + ↑j * m.c) hidx, Nat.add_zero]
        · have hmem' : (i, j) ∈ rest := by
            rcases List.mem_cons.mp hmem with h | h
            · exact absurd h hij
            · exact h
          rw [hat i j hi hj, if_pos hmem']
          rw [posIn_cons_ne hij]
          have : k + 1 + posIn (i, j) rest = k + (posIn (i, j) rest + 1) := by omega
          rw [this]
      · rw [if_neg hmem]
        have hin : (i, j) ∉ rest := fun h => hmem (List.mem_cons_of_mem _ h)
        have hne : (i, j) ≠ (a, b) := fun h => hmem (h ▸ List.mem_cons_self _ _)
        rw [hat i j hi hj, if_neg hin]
        have hiN : (i : ℤ) < m.r := by omega
        have hjN : (j : ℤ) < m.c := by omega
        rw [Matrix.at'_eq_of_lt ⟨m.r, m.c, jsSet m.kernel (↑a + ↑b * m.c) (some (rng k))⟩ hiN hjN,
          Matrix.at'_eq_of_lt m hiN hjN]
        have hCne : (↑i + ↑j * m.c : ℤ) ≠ ↑a + ↑b * m.c := by
          intro he
          have h1 : (↑i + ↑j * m.c) % m.c = (i : ℤ) := by
            rw [Int.add_mul_emod_self]
            exact Int.emod_eq_of_lt (by positivity) (by omega)
          have h2 : (↑a + ↑b * m.c) % m.c = (a : ℤ) := by
            rw [Int.add_mul_emod_self]
            exact Int.emod_eq_of_lt (by positivity) (by omega)
          have hia : (i : ℤ) = a := by rw [← h1, ← h2, he]
          have hjm : (j : ℤ) * m.c = ↑b * m.c := by omega
          have hjb : (j : ℤ) = b := mul_right_cancel₀ (by omega) hjm
          exact hne (by
            have : i = a := by exact_mod_cast hia
            have : j = b := by exact_mod_cast hjb
            simp_all)
        rw [jsGet_jsSet_ne m.kernel _ _ hCne]

theorem Convolutor.randomize_spec (cv : Convolutor) (n : ℕ)
    (hr : cv.matrix.r = (n : ℤ)) (hc : cv.matrix.c = (n : ℤ)) (rng : ℕ → ℚ) (k0 : ℕ) :
    ∃ cv', cv.randomize rng k0 = .ok (cv', k0 + n * n) ∧
      cv'.matrix.r = (n : ℤ) ∧ cv'.matrix.c = (n : ℤ) ∧
      ∀ i j : ℕ, i < n → j < n →
        cv'.at' i j = .ok (some (rng (k0 + (i * n + j)))) := by
  have hn : cv.nGet = .ok (n : ℤ) := by
    unfold Convolutor.nGet
    rw [if_neg (by omega), hr]
    rfl
  obtain ⟨m', hm', hr', hc', hat⟩ := randomizeCells_spec rng (n : ℤ)
    (cellList2 n n) k0 cv.matrix hr hc (cellList2_nodup n n)
    (fun p hp => by
      obtain ⟨h1, h2⟩ := cellList2_mem hp
      omega)
  have hm'' := hm'
  rw [cellList2_length] at hm''
  refine ⟨⟨m'⟩, ?_, hr', hc', ?_⟩
  · unfold Convolutor.randomize
    rw [hn]
    simp only [bind, Except.bind, Int.toNat_natCast, hm'']
    rfl
  · intro i j hi hj
    have h := hat i j (by omega) (by omega)
    rw [if_pos (cellList2_mem_of_lt hi hj), cellList2_posIn hi hj] at h
    exact h

theorem WeightedColoredConvolutor.randomizeW_spec (w : WeightedColoredConvolutor)
    (n1 n2 n3 : ℕ)
    (h1r : w.fromRed.matrix.r = (n1 : ℤ)) (h1c : w.fromRed.matrix.c = (n1 : ℤ))
    (h2r : w.fromGreen.matrix.r = (n2 : ℤ)) (h2c : w.fromGreen.matrix.c = (n2 : ℤ))
    (h3r : w.fromBlue.matrix.r = (n3 : ℤ)) (h3c : w.fromBlue.matrix.c = (n3 : ℤ))
    (rng : ℕ → ℚ) (k0 : ℕ) :
    ∃ w', w.randomizeW rng k0
        = .ok (w', k0 + n1 * n1 + n2 * n2 + n3 * n3 + w.weights.length) ∧
      w'.weights = w.weights ∧
      (∀ i j : ℕ, i < n1 → j < n1 →
        w'.fromRed.at' i j = .ok (some (rng (k0 + (i * n1 + j))))) ∧
      (∀ i j : ℕ, i < n2 → j < n2 →
        w'.fromGreen.at' i j = .ok (some (rng (k0 + n1 * n1 + (i * n2 + j))))) ∧
      (∀ i j : ℕ, i < n3 → j < n3 →
        w'.fromBlue.at' i j = .ok (some (rng (k0 + n1 * n1 + n2 * n2 + (i * n3 + j))))) := by
  obtain ⟨c1, hc1, _, _, hat1⟩ := w.fromRed.randomize_spec n1 h1r h1c rng k0
  obtain ⟨c2, hc2, _, _, hat2⟩ :=
    w.fromGreen.randomize_spec n2 h2r h2c rng (k0 + n1 * n1)
  obtain ⟨c3, hc3, _, _, hat3⟩ :=
    w.fromBlue.randomize_spec n3 h3r h3c rng (k0 + n1 * n1 + n2 * n2)
  refine ⟨⟨c1, c2, c3, w.weights⟩, ?_, rfl, hat1, hat2, hat3⟩
  unfold WeightedColoredConvolutor.randomizeW
  simp only [bind, Except.bind, hc1, hc2, hc3]
  rfl

/-- Selecting right after updating returns the updated combinator. -/
theorem PictureConvolutor.getWCC_setWCC (pc : PictureConvolutor) (ch : Channel)
    (w : WeightedColoredConvolutor) :
    (pc.setWeightedColoredConvolutor ch w).getWeightedColoredConvolutor ch = w := by
  cases ch <;> rfl

/-- C4: randomizing one Channel Combinator replaces every entry of its three
kernels with fresh random samples (row by row, red kernel first, then
green, then blue), but leaves the three-element weight vector exactly
unchanged — the `weights.map(() => Math.random())` result is discarded. -/
theorem randomizeChannel_keeps_weights (pc : PictureConvolutor) (ch : Channel)
    (rng : ℕ → ℚ) (k0 : ℕ) (n1 n2 n3 : ℕ)
    (h1r : (pc.getWeightedColoredConvolutor ch).fromRed.matrix.r = (n1 : ℤ))
    (h1c : (pc.getWeightedColoredConvolutor ch).fromRed.matrix.c = (n1 : ℤ))
    (h2r : (pc.getWeightedColoredConvolutor ch).fromGreen.matrix.r = (n2 : ℤ))
    (h2c : (pc.getWeightedColoredConvolutor ch).fromGreen.matrix.c = (n2 : ℤ))
    (h3r : (pc.getWeightedColoredConvolutor ch).fromBlue.matrix.r = (n3 : ℤ))
    (h3c : (pc.getWeightedColoredConvolutor ch).fromBlue.matrix.c = (n3 : ℤ)) :
    ∃ pc' k', pc.randomizeChannel ch rng k0 = .ok (pc', k') ∧
      (pc'.getWeightedColoredConvolutor ch).weights
        = (pc.getWeightedColoredConvolutor ch).weights ∧
      (∀ i j : ℕ, i < n1 → j < n1 →
        (pc'.getWeightedColoredConvolutor ch).fromRed.at' i j
          = .ok (some (rng (k0 + (i * n1 + j))))) ∧
      (∀ i j : ℕ, i < n2 → j < n2 →
        (pc'.getWeightedColoredConvolutor ch).fromGreen.at' i j
          = .ok (some (rng (k0 + n1 * n1 + (i * n2 + j))))) ∧
      (∀ i j : ℕ, i < n3 → j < n3 →
        (pc'.getWeightedColoredConvolutor ch).fromBlue.at' i j
          = .ok (some (rng (k0 + n1 * n1 + n2 * n2 + (i * n3 + j))))) := by
  obtain ⟨w', hw', hwts, hat1, hat2, hat3⟩ :=
    (pc.getWeightedColoredConvolutor ch).randomizeW_spec n1 n2 n3
      h1r h1c h2r h2c h3r h3c rng k0
  refine ⟨pc.setWeightedColoredConvolutor ch w',
    k0 + n1 * n1 + n2 * n2 + n3 * n3
      + (pc.getWeightedColoredConvolutor ch).weights.length, ?_, ?_, ?_, ?_, ?_⟩
  · unfold PictureConvolutor.randomizeChannel
    simp only [bind, Except.bind, hw']
    rfl
  · rw [pc.getWCC_setWCC ch w']
    exact hwts
  · rw [pc.getWCC_setWCC ch w']
    exact hat1
  · rw [pc.getWCC_setWCC ch w']
    exact hat2
  · rw [pc.getWCC_setWCC ch w']
    exact hat3

theorem randomizeChannel_keeps_weights_w :
    ∃ pc' k', pcOne.randomizeChannel .red (fun k => (k : ℚ)) 0 = .ok (pc', k') ∧
      (pc'.getWeightedColoredConvolutor .red).weights
        = (pcOne.getWeightedColoredConvolutor .red).weights ∧
      (∀ i j : ℕ, i < 1 → j < 1 →
        (pc'.getWeightedColoredConvolutor .red).fromRed.at' i j
          = .ok (some ((0 + (i * 1 + j) : ℕ) : ℚ))) ∧
      (∀ i j : ℕ, i < 1 → j < 1 →
        (pc'.getWeightedColoredConvolutor .red).fromGreen.at' i j
          = .ok (some ((0 + 1 * 1 + (i * 1 + j) : ℕ) : ℚ))) ∧
      (∀ i j : ℕ, i < 1 → j < 1 →
        (pc'.getWeightedColoredConvolutor .red).fromBlue.at' i j
          = .ok (some ((0 + 1 * 1 + 1 * 1 + (i * 1 + j) : ℕ) : ℚ))) :=
  randomizeChannel_keeps_weights pcOne .red (fun k => (k : ℚ)) 0 1 1 1
    (by decide) (by decide) (by decide) (by decide) (by decide) (by decide)

end Ecnn
